import Mathlib

/-!
Verification development for the acid-house synthesizer / step sequencer
(`src/app/page.tsx`).

The Web Audio node graph is shallowly embedded as a list of directed edges
between named nodes.  `connect` models `AudioNode.connect` (the Web Audio API
ignores duplicate connections between the same pair of nodes), and
`disconnectAll` models the zero-argument `AudioNode.disconnect()`, which
removes every outbound connection of a node.  Numeric audio parameters are
modelled as rationals.
-/

/-- The long-lived and per-trigger audio nodes of the program.  `src` is the
per-voice lowpass filter output that `connectToEffectsChain` receives;
`voiceOsc`/`voiceGain` are the melodic voice's oscillator and gain stage;
the `drum*` nodes are the per-hit generating units of `playDrumSound`. -/
inductive Node
  | src
  | master
  | delay
  | feedbackGain
  | reverb
  | compressor
  | duckGain
  | kickGain
  | dest
  | voiceOsc
  | voiceGain
  | drumOsc
  | drumGain
  | drumOscGain
  | drumNoise
  | drumNoiseGain
  | drumFilter
deriving DecidableEq, Repr

/-- The audio graph: the list of directed connections currently established. -/
abbrev Graph := List (Node × Node)

/-- `a.connect(b)`: Web Audio ignores a duplicate connection between the same
output/input pair, so connecting is a no-op when the edge already exists. -/
def connect (g : Graph) (a b : Node) : Graph :=
  if (a, b) ∈ g then g else g ++ [(a, b)]

/-- `a.disconnect()` with no arguments: removes every outbound connection
of `a`. -/
def disconnectAll (g : Graph) (a : Node) : Graph :=
  List.filter (fun e => !(e.1 == a)) g

/-- The ordered list of targets of a node's outbound connections. -/
def outTargets (g : Graph) (a : Node) : List Node :=
  List.map (fun e => e.2) (List.filter (fun e => e.1 == a) g)

/-- The four master-effects flags of the component state
(`delayEnabled`, `reverbEnabled`, `compressionEnabled`, `duckKick`). -/
structure FxFlags where
  delayEnabled : Bool
  reverbEnabled : Bool
  compressionEnabled : Bool
  duckKick : Bool
deriving DecidableEq, Repr

/-- `connectToEffectsChain(node)` (`src/app/page.tsx` lines 360–427), with
`node` embedded as `Node.src`: disconnect all of the node's outbound edges,
then wire node / delay / reverb / compressor according to the enabled flags,
the final stage going to `ctx.destination`.  The local `destination` variable
of the source is pure bookkeeping and never read, so it is dropped here. -/
def applyChain (f : FxFlags) (g0 : Graph) : Graph :=
  let g1 := disconnectAll g0 Node.src
  let g2 :=
    if f.delayEnabled then connect g1 Node.src Node.delay
    else connect g1 Node.src Node.master
  let g3 :=
    if f.reverbEnabled then
      if f.delayEnabled then connect (disconnectAll g2 Node.delay) Node.delay Node.reverb
      else connect (disconnectAll g2 Node.src) Node.src Node.reverb
    else
      if f.delayEnabled then connect (disconnectAll g2 Node.delay) Node.delay Node.master
      else g2
  if f.compressionEnabled then
    let g4 :=
      if f.reverbEnabled then connect (disconnectAll g3 Node.reverb) Node.reverb Node.compressor
      else if f.delayEnabled then connect (disconnectAll g3 Node.delay) Node.delay Node.compressor
      else connect (disconnectAll g3 Node.src) Node.src Node.compressor
    connect g4 Node.compressor Node.dest
  else
    if f.reverbEnabled then connect (disconnectAll g3 Node.reverb) Node.reverb Node.dest
    else if f.delayEnabled then connect (disconnectAll g3 Node.delay) Node.delay Node.dest
    else connect (disconnectAll g3 Node.src) Node.src Node.dest

/-- The static wiring established once at startup (`src/app/page.tsx` lines
103–170): the delay feedback loop, delay→reverb→compressor→destination, and
the dry master→compressor path.  Line 158 repeats the line 107 connection,
which Web Audio ignores as a duplicate. -/
def initGraph : Graph :=
  let g : Graph := []
  let g := connect g Node.delay Node.feedbackGain
  let g := connect g Node.feedbackGain Node.delay
  let g := connect g Node.delay Node.feedbackGain
  let g := connect g Node.delay Node.reverb
  let g := connect g Node.reverb Node.compressor
  let g := connect g Node.compressor Node.dest
  connect g Node.master Node.compressor

/-- Modelled from the spec's `computeTopology` contract: the ordered list of
enabled effect stages, delay first, then reverb, then compressor.  This is
the spec-side pure function against which the code's rewiring is compared. -/
def computeTopology (f : FxFlags) : List Node :=
  (if f.delayEnabled then [Node.delay] else []) ++
    (if f.reverbEnabled then [Node.reverb] else []) ++
      (if f.compressionEnabled then [Node.compressor] else [])

/-- `chainHolds g ns` checks that consecutive nodes of `ns` are each other's
unique successors in `g`: every node of the list except the last has exactly
one outbound connection, to the next node of the list. -/
def chainHolds (g : Graph) : List Node → Bool
  | a :: b :: rest => (outTargets g a == [b]) && chainHolds g (b :: rest)
  | _ => true

theorem mem_connect {g : Graph} {a b : Node} {x : Node × Node} :
    x ∈ connect g a b ↔ x ∈ g ∨ x = (a, b) := by
  unfold connect
  by_cases h : (a, b) ∈ g
  · simp only [if_pos h]
    constructor
    · exact Or.inl
    · rintro (hx | rfl) <;> [exact hx; exact h]
  · simp [if_neg h, List.mem_append]

theorem mem_disconnectAll {g : Graph} {a : Node} {x : Node × Node} :
    x ∈ disconnectAll g a ↔ x ∈ g ∧ x.1 ≠ a := by
  simp [disconnectAll, List.mem_filter]

theorem mem_outTargets {g : Graph} {a b : Node} :
    b ∈ outTargets g a ↔ (a, b) ∈ g := by
  simp only [outTargets, List.mem_map, List.mem_filter, beq_iff_eq]
  constructor
  · rintro ⟨⟨a', b'⟩, ⟨hm, rfl⟩, rfl⟩
    exact hm
  · intro h
    exact ⟨(a, b), ⟨h, rfl⟩, rfl⟩

theorem outTargets_append (g g' : Graph) (a : Node) :
    outTargets (g ++ g') a = outTargets g a ++ outTargets g' a := by
  simp [outTargets, List.filter_append]

theorem outTargets_disconnectAll_self (g : Graph) (a : Node) :
    outTargets (disconnectAll g a) a = [] := by
  induction g with
  | nil => rfl
  | cons e g ih =>
    by_cases h : e.1 = a <;>
      simp_all [outTargets, disconnectAll, List.filter_cons]

theorem outTargets_disconnectAll_ne {a c : Node} (h : a ≠ c) (g : Graph) :
    outTargets (disconnectAll g c) a = outTargets g a := by
  induction g with
  | nil => rfl
  | cons e g ih =>
    by_cases h1 : e.1 = c
    · have h2 : e.1 ≠ a := by rw [h1]; exact fun hh => h hh.symm
      simp_all [outTargets, disconnectAll, List.filter_cons]
    · by_cases h2 : e.1 = a <;>
        simp_all [outTargets, disconnectAll, List.filter_cons]

theorem outTargets_connect_ne {a c : Node} (h : a ≠ c) (g : Graph) (b : Node) :
    outTargets (connect g c b) a = outTargets g a := by
  unfold connect
  by_cases hm : (c, b) ∈ g
  · simp [if_pos hm]
  · rw [if_neg hm, outTargets_append]
    have : outTargets ([(c, b)] : Graph) a = [] := by
      simp [outTargets, List.filter_cons, fun hh : a = c => h hh]
      intro hh
      exact absurd hh.symm h
    rw [this, List.append_nil]

theorem outTargets_connect_self_of_nil {g : Graph} {a : Node} (b : Node)
    (h : outTargets g a = []) : outTargets (connect g a b) a = [b] := by
  have hm : (a, b) ∉ g := fun hmem => by
    have := mem_outTargets.mpr hmem
    rw [h] at this
    exact absurd this (List.not_mem_nil b)
  unfold connect
  rw [if_neg hm, outTargets_append, h]
  simp [outTargets, List.filter_cons]

theorem outTargets_connect_self_of_eq {g : Graph} {a b : Node}
    (h : outTargets g a = [b]) : outTargets (connect g a b) a = [b] := by
  have hm : (a, b) ∈ g := mem_outTargets.mp (by rw [h]; exact List.mem_singleton_self b)
  unfold connect
  rw [if_pos hm, h]

theorem applyChain_chainHolds (f : FxFlags) (g : Graph)
    (hc : outTargets g Node.compressor = [Node.dest]) :
    chainHolds (applyChain f g) (Node.src :: computeTopology f ++ [Node.dest]) = true := by
  obtain ⟨d, r, c, k⟩ := f
  cases d <;> cases r <;> cases c <;>
    simp [applyChain, computeTopology, chainHolds,
      outTargets_connect_ne, outTargets_disconnectAll_ne, outTargets_disconnectAll_self,
      outTargets_connect_self_of_nil, outTargets_connect_self_of_eq, hc]

/-- The compressor's outbound connections are untouched by re-routing: the
code never calls `disconnect` on the compressor, and the only connection it
adds from it is the (already present) edge to the destination. -/
theorem outTargets_applyChain_compressor (f : FxFlags) {g : Graph}
    (hc : outTargets g Node.compressor = [Node.dest]) :
    outTargets (applyChain f g) Node.compressor = [Node.dest] := by
  obtain ⟨d, r, c, k⟩ := f
  cases d <;> cases r <;> cases c <;>
    simp [applyChain, outTargets_connect_ne, outTargets_disconnectAll_ne,
      outTargets_connect_self_of_eq, hc]

/-- C1: for every combination of the four effect flags, routing a melodic
voice's filter output (`Node.src`) through `connectToEffectsChain` produces
exactly the chain source → [delay] → [reverb] → [compressor] → hardware
output: each listed node's unique outbound connection is the next one, the
last enabled stage is connected to `ctx.destination`, and with no stage
enabled the source connects straight to the destination.  The resulting chain
`computeTopology f` depends only on the flags, not on the prior graph state
(any graph in which the compressor's sole outbound edge is the static one to
the destination, as wired at startup). -/
theorem effects_chain_topology (f : FxFlags) (g : Graph)
    (hc : outTargets g Node.compressor = [Node.dest]) :
    chainHolds (applyChain f g) (Node.src :: computeTopology f ++ [Node.dest]) = true :=
  applyChain_chainHolds f g hc

theorem effects_chain_topology_witness :
    outTargets initGraph Node.compressor = [Node.dest] ∧
      chainHolds (applyChain ⟨true, true, true, false⟩ initGraph)
        (Node.src :: computeTopology ⟨true, true, true, false⟩ ++ [Node.dest]) = true :=
  ⟨by decide, effects_chain_topology ⟨true, true, true, false⟩ initGraph (by decide)⟩

/-- C5 counterexample: from the startup wiring with all effects off (and a
voice routed straight to the destination), toggling the delay flag on and
then off again does not restore the original connection set: the connection
count drops from 7 to 6, the delay feedback-loop edge delay→feedbackGain is
lost, and a stale delay→destination edge remains. -/
theorem routing_round_trip_cex :
    (applyChain ⟨false, false, false, false⟩
          (applyChain ⟨true, false, false, false⟩
            (applyChain ⟨false, false, false, false⟩ initGraph))).length ≠
        (applyChain ⟨false, false, false, false⟩ initGraph).length
      ∧ (Node.delay, Node.feedbackGain) ∈ applyChain ⟨false, false, false, false⟩ initGraph
      ∧ (Node.delay, Node.feedbackGain) ∉
          applyChain ⟨false, false, false, false⟩
            (applyChain ⟨true, false, false, false⟩
              (applyChain ⟨false, false, false, false⟩ initGraph))
      ∧ (Node.delay, Node.dest) ∈
          applyChain ⟨false, false, false, false⟩
            (applyChain ⟨true, false, false, false⟩
              (applyChain ⟨false, false, false, false⟩ initGraph))
      ∧ (Node.delay, Node.dest) ∉ applyChain ⟨false, false, false, false⟩ initGraph := by
  decide

/-- C5 amended: toggling any effect flag on and then off again restores the
voice chain's enabled-stage ordering (the chain from the source through the
enabled stages to the destination is a pure function of the flags), but not
the effects graph's full connection set: re-routing severs all outbound
connections of the re-routed stages, so static edges such as the delay
feedback loop can be permanently lost and stale stage→destination edges can
remain, and the total connection count is not invariant. -/
theorem routing_round_trip_amended (fOrig fTog : FxFlags) (g : Graph)
    (hc : outTargets g Node.compressor = [Node.dest]) :
    chainHolds (applyChain fOrig (applyChain fTog (applyChain fOrig g)))
      (Node.src :: computeTopology fOrig ++ [Node.dest]) = true :=
  applyChain_chainHolds fOrig _
    (outTargets_applyChain_compressor fTog (outTargets_applyChain_compressor fOrig hc))

theorem routing_round_trip_amended_witness :
    outTargets initGraph Node.compressor = [Node.dest] ∧
      chainHolds
        (applyChain ⟨false, false, false, false⟩
          (applyChain ⟨true, false, false, false⟩
            (applyChain ⟨false, false, false, false⟩ initGraph)))
        (Node.src :: computeTopology ⟨false, false, false, false⟩ ++ [Node.dest]) = true :=
  ⟨by decide,
    routing_round_trip_amended ⟨false, false, false, false⟩ ⟨true, false, false, false⟩
      initGraph (by decide)⟩

/-- The melodic voice's oscillator waveform choices. -/
inductive OscType
  | sawtooth
  | square
  | triangle
deriving DecidableEq, Repr

/-- `SynthParams` (`src/app/page.tsx` lines 5–15), numeric fields as
rationals. -/
structure SynthParams where
  oscillatorType : OscType
  cutoff : ℚ
  resonance : ℚ
  attack : ℚ
  decay : ℚ
  sustain : ℚ
  release : ℚ
  delayTime : ℚ
  delayFeedback : ℚ
deriving DecidableEq, Repr

/-- `defaultSynthParams` (`src/app/page.tsx` lines 33–43). -/
def defaultSynthParams : SynthParams :=
  { oscillatorType := OscType.sawtooth
    cutoff := 50
    resonance := 20
    attack := 20
    decay := 40
    sustain := 70
    release := 30
    delayTime := 30
    delayFeedback := 40 }

/-- `DrumParams` (`src/app/page.tsx` lines 17–31). -/
structure DrumParams where
  kickTone : ℚ
  kickDecay : ℚ
  snareNoise : ℚ
  snareTone : ℚ
  snareDecay : ℚ
  hiHatOpen : ℚ
  hiHatDecay : ℚ
  tomTone : ℚ
  tomDecay : ℚ
  clapDecay : ℚ
  percTone : ℚ
  percDecay : ℚ
  tempo : ℚ
deriving DecidableEq, Repr

/-- `defaultDrumParams` (`src/app/page.tsx` lines 45–59). -/
def defaultDrumParams : DrumParams :=
  { kickTone := 50
    kickDecay := 200
    snareNoise := 50
    snareTone := 50
    snareDecay := 150
    hiHatOpen := 50
    hiHatDecay := 80
    tomTone := 100
    tomDecay := 300
    clapDecay := 150
    percTone := 800
    percDecay := 100
    tempo := 120 }

/-- The automation events `playSynthNote` schedules on the melodic voice's
gain and filter, as offsets in seconds from the trigger time `now`. -/
structure MelodicSchedule where
  gainInitial : ℚ
  gainPeak : ℚ
  attackTime : ℚ
  decayTime : ℚ
  sustainLevel : ℚ
  releaseTime : ℚ
  releaseTarget : ℚ
  releaseTau : ℚ
  filterInitial : ℚ
  filterTarget : ℚ
  filterSweepTime : ℚ
  oscStopTime : ℚ

/-- `playSynthNote` (`src/app/page.tsx` lines 188–227), scheduling part:
`setValueAtTime(0, now)`, `linearRampToValueAtTime(1, now + attack/100)`,
`linearRampToValueAtTime(sustain/100, now + attack/100 + decay/100)`,
`setTargetAtTime(0, now + attack/100 + decay/100, (release/100)/10)` on the
gain; `setValueAtTime(20000, now)`,
`linearRampToValueAtTime(cutoff*200, now + 0.1)` on the filter frequency;
`osc.stop(now + attackTime + decayTime + releaseTime + 0.1)`. -/
def playSynthNote (p : SynthParams) : MelodicSchedule :=
  { gainInitial := 0
    gainPeak := 1
    attackTime := p.attack / 100
    decayTime := p.decay / 100
    sustainLevel := p.sustain / 100
    releaseTime := p.release / 100
    releaseTarget := 0
    releaseTau := p.release / 100 / 10
    filterInitial := 20000
    filterTarget := p.cutoff * 200
    filterSweepTime := 0.1
    oscStopTime := p.attack / 100 + p.decay / 100 + p.release / 100 + 0.1 }

/-- The value of the scheduled gain automation at offset `t` from the trigger
time, per Web Audio semantics: linear ramps between the scheduled breakpoints
and, from `attackTime + decayTime` on, an exponential approach toward the
`setTargetAtTime` target.  `e` abstracts the decaying exponential
`fun x => Real.exp x`; it is applied to `-(t - startTime) / timeConstant`. -/
def gainValue (e : ℚ → ℚ) (m : MelodicSchedule) (t : ℚ) : ℚ :=
  if t ≤ 0 then m.gainInitial
  else if t ≤ m.attackTime then
    m.gainInitial + t / m.attackTime * (m.gainPeak - m.gainInitial)
  else if t ≤ m.attackTime + m.decayTime then
    m.gainPeak + (t - m.attackTime) / m.decayTime * (m.sustainLevel - m.gainPeak)
  else
    m.releaseTarget +
      (m.sustainLevel - m.releaseTarget) *
        e (-(t - (m.attackTime + m.decayTime)) / m.releaseTau)

/-- The value of the scheduled filter-frequency automation at offset `t`:
a single linear ramp from `filterInitial` to `filterTarget` ending at
`filterSweepTime`. -/
def filterValue (m : MelodicSchedule) (t : ℚ) : ℚ :=
  if t ≤ 0 then m.filterInitial
  else if t ≤ m.filterSweepTime then
    m.filterInitial + t / m.filterSweepTime * (m.filterTarget - m.filterInitial)
  else m.filterTarget

theorem gainValue_at_zero (e : ℚ → ℚ) (m : MelodicSchedule) :
    gainValue e m 0 = m.gainInitial := by
  simp [gainValue]

theorem gainValue_at_attack (e : ℚ → ℚ) (m : MelodicSchedule)
    (h : 0 < m.attackTime) : gainValue e m m.attackTime = m.gainPeak := by
  unfold gainValue
  rw [if_neg (not_le.mpr h), if_pos le_rfl, div_self (ne_of_gt h)]
  ring

theorem gainValue_at_sustain (e : ℚ → ℚ) (m : MelodicSchedule)
    (ha : 0 < m.attackTime) (hd : 0 < m.decayTime) :
    gainValue e m (m.attackTime + m.decayTime) = m.sustainLevel := by
  unfold gainValue
  have h0 : ¬(m.attackTime + m.decayTime ≤ 0) := by push_neg; linarith
  have h1 : ¬(m.attackTime + m.decayTime ≤ m.attackTime) := by push_neg; linarith
  rw [if_neg h0, if_neg h1, if_pos le_rfl]
  have h2 : m.attackTime + m.decayTime - m.attackTime = m.decayTime := by ring
  rw [h2, div_self (ne_of_gt hd)]
  ring

theorem gainValue_release (e : ℚ → ℚ) (m : MelodicSchedule)
    (ha : 0 ≤ m.attackTime) (hd : 0 ≤ m.decayTime) {t : ℚ}
    (ht : m.attackTime + m.decayTime < t) :
    gainValue e m t =
      m.releaseTarget +
        (m.sustainLevel - m.releaseTarget) *
          e (-(t - (m.attackTime + m.decayTime)) / m.releaseTau) := by
  unfold gainValue
  rw [if_neg (by push_neg; linarith), if_neg (by push_neg; linarith),
    if_neg (not_le.mpr ht)]

/-- C2: `triggerMelodicVoice` schedules the gain envelope as value 0 at the
trigger time, a linear ramp reaching 1.0 at `attack/100` seconds, a linear
ramp reaching `sustain/100` at `attack/100 + decay/100` seconds, then an
exponential approach toward 0 with time constant `release/1000` seconds; for
attack=20, decay=40, sustain=70, release=30 this gives attackTime 0.2s,
decayTime 0.4s, sustainLevel 0.7, releaseTau 0.03, and the gain value at
offset 0.6s equals 0.7. -/
theorem melodic_envelope_spec :
    (∀ p : SynthParams,
        (playSynthNote p).gainInitial = 0
          ∧ (playSynthNote p).attackTime = p.attack / 100
          ∧ (playSynthNote p).gainPeak = 1
          ∧ (playSynthNote p).decayTime = p.decay / 100
          ∧ (playSynthNote p).sustainLevel = p.sustain / 100
          ∧ (playSynthNote p).releaseTarget = 0
          ∧ (playSynthNote p).releaseTau = p.release / 1000)
      ∧ (∀ (p : SynthParams) (e : ℚ → ℚ), 0 < p.attack → 0 < p.decay →
          gainValue e (playSynthNote p) 0 = 0
            ∧ gainValue e (playSynthNote p) (p.attack / 100) = 1
            ∧ gainValue e (playSynthNote p) (p.attack / 100 + p.decay / 100) = p.sustain / 100
            ∧ ∀ t : ℚ, p.attack / 100 + p.decay / 100 < t →
                gainValue e (playSynthNote p) t =
                  p.sustain / 100 *
                    e (-(t - (p.attack / 100 + p.decay / 100)) / (p.release / 1000)))
      ∧ ((playSynthNote defaultSynthParams).attackTime = 1 / 5
          ∧ (playSynthNote defaultSynthParams).decayTime = 2 / 5
          ∧ (playSynthNote defaultSynthParams).sustainLevel = 7 / 10
          ∧ (playSynthNote defaultSynthParams).releaseTau = 3 / 100
          ∧ ∀ e : ℚ → ℚ, gainValue e (playSynthNote defaultSynthParams) (3 / 5) = 7 / 10) := by
  refine ⟨fun p => ⟨rfl, rfl, rfl, rfl, rfl, rfl, ?_⟩, fun p e ha hd => ?_, ?_⟩
  · show p.release / 100 / 10 = p.release / 1000
    ring
  · have ha' : (0 : ℚ) < p.attack / 100 := by positivity
    have hd' : (0 : ℚ) < p.decay / 100 := by positivity
    refine ⟨gainValue_at_zero e _, gainValue_at_attack e _ ha',
      gainValue_at_sustain e _ ha' hd', fun t ht => ?_⟩
    have h := gainValue_release e (playSynthNote p) (le_of_lt ha') (le_of_lt hd') ht
    rw [h]
    show (0 : ℚ) + (p.sustain / 100 - 0) * e (-(t - (p.attack / 100 + p.decay / 100)) / (p.release / 100 / 10)) = _
    have harg : -(t - (p.attack / 100 + p.decay / 100)) / (p.release / 100 / 10) =
        -(t - (p.attack / 100 + p.decay / 100)) / (p.release / 1000) := by
      ring_nf
    rw [harg]
    ring
  · refine ⟨by norm_num [playSynthNote, defaultSynthParams],
      by norm_num [playSynthNote, defaultSynthParams],
      by norm_num [playSynthNote, defaultSynthParams],
      by norm_num [playSynthNote, defaultSynthParams], fun e => ?_⟩
    have h := gainValue_at_sustain e (playSynthNote defaultSynthParams)
      (by norm_num [playSynthNote, defaultSynthParams])
      (by norm_num [playSynthNote, defaultSynthParams])
    norm_num [playSynthNote, defaultSynthParams] at h
    convert h using 2
    norm_num [playSynthNote, defaultSynthParams]

theorem melodic_envelope_spec_witness :
    (0 : ℚ) < defaultSynthParams.attack
      ∧ gainValue (fun _ => 1) (playSynthNote defaultSynthParams)
          (defaultSynthParams.attack / 100 + defaultSynthParams.decay / 100) =
        defaultSynthParams.sustain / 100 :=
  ⟨by norm_num [defaultSynthParams],
    (melodic_envelope_spec.2.1 defaultSynthParams (fun _ => 1)
      (by norm_num [defaultSynthParams]) (by norm_num [defaultSynthParams])).2.2.1⟩

/-- C8: the lowpass filter cutoff is scheduled to ramp linearly from
20000 Hz to `cutoff * 200` Hz over a fixed 0.1-second window starting at the
trigger time, independently of attack/decay/sustain/release; with cutoff=50
the 10000 Hz target is reached at offset 0.1s. -/
theorem filter_sweep_spec :
    (∀ p q : SynthParams, p.cutoff = q.cutoff →
        (playSynthNote p).filterInitial = (playSynthNote q).filterInitial
          ∧ (playSynthNote p).filterTarget = (playSynthNote q).filterTarget
          ∧ (playSynthNote p).filterSweepTime = (playSynthNote q).filterSweepTime)
      ∧ (∀ p : SynthParams,
          (playSynthNote p).filterInitial = 20000
            ∧ (playSynthNote p).filterTarget = p.cutoff * 200
            ∧ (playSynthNote p).filterSweepTime = 1 / 10)
      ∧ ∀ p : SynthParams, p.cutoff = 50 →
          filterValue (playSynthNote p) (1 / 10) = 10000 := by
  refine ⟨fun p q hpq => ⟨rfl, by simp [playSynthNote, hpq], rfl⟩,
    fun p => ⟨rfl, rfl, by norm_num [playSynthNote]⟩, fun p hcut => ?_⟩
  norm_num [filterValue, playSynthNote, hcut]

theorem filter_sweep_spec_witness :
    defaultSynthParams.cutoff = 50
      ∧ filterValue (playSynthNote defaultSynthParams) (1 / 10) = 10000 :=
  ⟨by norm_num [defaultSynthParams],
    filter_sweep_spec.2.2 defaultSynthParams (by norm_num [defaultSynthParams])⟩

/-- The automation events the kick trigger schedules (`src/app/page.tsx`
lines 235–251), as offsets in seconds from `ctx.currentTime`:
`osc.frequency.setValueAtTime(150 + kickTone*5, now)`,
`osc.frequency.exponentialRampToValueAtTime(20, now + kickDecay/1000)`,
`gain.setValueAtTime(1, now)`,
`gain.exponentialRampToValueAtTime(0.001, now + kickDecay/1000)`,
`osc.stop(now + kickDecay/1000 + 0.05)`. -/
structure KickSchedule where
  startFreq : ℚ
  freqTarget : ℚ
  freqRampEnd : ℚ
  gainStart : ℚ
  gainTarget : ℚ
  gainRampEnd : ℚ
  oscStopTime : ℚ

/-- The kick case of `playDrumSound`, transcribed event for event. -/
def kickSchedule (d : DrumParams) : KickSchedule :=
  { startFreq := 150 + d.kickTone * 5
    freqTarget := 20
    freqRampEnd := d.kickDecay / 1000
    gainStart := 1
    gainTarget := 0.001
    gainRampEnd := d.kickDecay / 1000
    oscStopTime := d.kickDecay / 1000 + 0.05 }

/-- C7: the kick trigger schedules a sine oscillator starting at
`150 + kickTone*5` Hz (400 Hz for kickTone=50), an exponential frequency
sweep to 20 Hz over `kickDecay/1000` seconds, a gain envelope from 1.0
exponentially to 0.001 over `kickDecay/1000` seconds, and stops the
oscillator 50 ms after the decay ends. -/
theorem kick_trigger_spec : ∀ d : DrumParams,
    (kickSchedule d).startFreq = 150 + d.kickTone * 5
      ∧ (d.kickTone = 50 → (kickSchedule d).startFreq = 400)
      ∧ (kickSchedule d).freqTarget = 20
      ∧ (kickSchedule d).freqRampEnd = d.kickDecay / 1000
      ∧ (kickSchedule d).gainStart = 1
      ∧ (kickSchedule d).gainTarget = 1 / 1000
      ∧ (kickSchedule d).gainRampEnd = d.kickDecay / 1000
      ∧ (kickSchedule d).oscStopTime = (kickSchedule d).gainRampEnd + 1 / 20 := by
  intro d
  refine ⟨rfl, fun h => ?_, rfl, rfl, rfl, by norm_num [kickSchedule], rfl,
    by norm_num [kickSchedule]⟩
  norm_num [kickSchedule, h]

theorem kick_trigger_spec_witness :
    defaultDrumParams.kickTone = 50
      ∧ (kickSchedule defaultDrumParams).startFreq = 400 :=
  ⟨by norm_num [defaultDrumParams],
    (kick_trigger_spec defaultDrumParams).2.1 (by norm_num [defaultDrumParams])⟩

/-- C4 is a code bug: `playDrumSound` performs no clamping whatsoever — the
raw `kickDecay/1000` is used as the exponential-ramp end offset, so a zero
decay yields a zero-length ramp (end time equal to the trigger time) and a
negative decay yields a ramp ending before the trigger time, contradicting
the spec's requirement of a strictly positive floor (and of clamping decays
below ~5 ms). -/
theorem kick_decay_not_clamped :
    (kickSchedule { defaultDrumParams with kickDecay := 0 }).gainRampEnd = 0
      ∧ (kickSchedule { defaultDrumParams with kickDecay := 0 }).freqRampEnd = 0
      ∧ (kickSchedule { defaultDrumParams with kickDecay := -5 }).gainRampEnd < 0
      ∧ (kickSchedule { defaultDrumParams with kickDecay := 4 }).gainRampEnd = 1 / 250 := by
  norm_num [kickSchedule, defaultDrumParams]

/-- The six drum instruments, in the insertion order of the `drumSequencer`
record (which `Object.entries` iterates in). -/
inductive DrumType
  | kick
  | snare
  | hihat
  | tom
  | clap
  | perc
deriving DecidableEq, Repr

def allDrumTypes : List DrumType :=
  [DrumType.kick, DrumType.snare, DrumType.hihat, DrumType.tom, DrumType.clap, DrumType.perc]

/-- `toggleSynthSequencerStep` / `toggleDrumSequencerStep`
(`src/app/page.tsx` lines 474–487): copy the 16-boolean sequence and flip the
one index (`newSequencer[index] = !newSequencer[index]`). -/
def toggleStep (steps : List Bool) (i : ℕ) : List Bool :=
  steps.set i (!(steps.getD i false))

theorem getD_set_ne : ∀ (l : List Bool) (i j : ℕ) (b : Bool), j ≠ i →
    (l.set i b).getD j false = l.getD j false := by
  intro l
  induction l with
  | nil => intro i j b _; simp
  | cons a l ih =>
    intro i j b hne
    cases i with
    | zero =>
      cases j with
      | zero => exact absurd rfl hne
      | succ j => simp [List.getD]
    | succ i =>
      cases j with
      | zero => simp [List.getD]
      | succ j => simpa [List.getD] using ih i j b (fun h => hne (by rw [h]))

theorem getD_set_self : ∀ (l : List Bool) (i : ℕ) (b : Bool), i < l.length →
    (l.set i b).getD i false = b := by
  intro l
  induction l with
  | nil => intro i b h; simp at h
  | cons a l ih =>
    intro i b h
    cases i with
    | zero => simp [List.getD]
    | succ i => simpa [List.getD] using ih i b (by simpa using h)

theorem set_getD_self : ∀ (l : List Bool) (i : ℕ), i < l.length →
    l.set i (l.getD i false) = l := by
  intro l
  induction l with
  | nil => intro i h; simp at h
  | cons a l ih =>
    intro i h
    cases i with
    | zero => simp [List.getD]
    | succ i => simpa [List.getD] using ih i (by simpa using h)

/-- C6: for a 16-boolean pattern and an index below 16, toggling a step twice
restores the original sequence, toggling changes only that index, and the
length stays exactly 16. -/
theorem pattern_toggle_spec (steps : List Bool) (i : ℕ)
    (hlen : steps.length = 16) (hi : i < 16) :
    toggleStep (toggleStep steps i) i = steps
      ∧ (∀ j : ℕ, j ≠ i → (toggleStep steps i).getD j false = steps.getD j false)
      ∧ (toggleStep steps i).length = 16 := by
  have hi' : i < steps.length := by rw [hlen]; exact hi
  refine ⟨?_, fun j hj => getD_set_ne steps i j _ hj, by simp [toggleStep, hlen]⟩
  unfold toggleStep
  rw [getD_set_self steps i _ hi', Bool.not_not, List.set_set,
    set_getD_self steps i hi']

theorem pattern_toggle_spec_witness :
    (List.replicate 16 false).length = 16
      ∧ (3 : ℕ) < 16
      ∧ toggleStep (toggleStep (List.replicate 16 false) 3) 3 = List.replicate 16 false :=
  ⟨by decide, by decide,
    (pattern_toggle_spec (List.replicate 16 false) 3 (by decide) (by decide)).1⟩

/-- The state the sequencer-tick effect reads (`src/app/page.tsx` lines
438–471): the step cursor, the melodic pattern, the six drum lanes, and the
master-effects flags. -/
structure SeqState where
  currentStep : ℕ
  synthSequencer : List Bool
  drumSequencer : DrumType → List Bool
  fx : FxFlags

/-- What one tick of the `setInterval` callback does, as data: the melodic
trigger frequency (if the melodic pattern's current step is active), the drum
lanes triggered, whether the duck envelope is scheduled, and the next value
of the step cursor. -/
structure TickOutput where
  melodicTrigger : Option ℚ
  drumTriggers : List DrumType
  duckScheduled : Bool
  nextStep : ℕ

/-- The tick period in milliseconds: `(60 / tempo) * 1000 / 4`. -/
def stepTime (tempo : ℚ) : ℚ :=
  60 / tempo * 1000 / 4

/-- One tick of the sequencer callback (`src/app/page.tsx` lines 443–468):
play the synth note at `300 + currentStep * 20` if the melodic step is
active, play each drum lane active at the current step, schedule the duck
envelope when compression, duck-on-kick and the kick lane all agree, then
advance the cursor modulo 16. -/
def tick (s : SeqState) : TickOutput :=
  { melodicTrigger :=
      if s.synthSequencer.getD s.currentStep false then
        some (300 + (s.currentStep : ℚ) * 20)
      else none
    drumTriggers := allDrumTypes.filter (fun t => (s.drumSequencer t).getD s.currentStep false)
    duckScheduled :=
      s.fx.compressionEnabled && s.fx.duckKick &&
        (s.drumSequencer DrumType.kick).getD s.currentStep false
    nextStep := (s.currentStep + 1) % 16 }

/-- C3: the tick period is `(60 / tempo) * 1000 / 4` ms (125 ms at 120 BPM,
250 ms at 60 BPM), each tick triggers the melodic voice at
`300 + currentStep * 20` Hz exactly when the melodic pattern's current step
is active, and the cursor advances to `(currentStep + 1) % 16`, which always
lies in `[0, 16)`. -/
theorem sequencer_tick_spec :
    (stepTime 120 = 125 ∧ stepTime 60 = 250 ∧ stepTime 180 = 250 / 3)
      ∧ ∀ s : SeqState,
          (s.synthSequencer.getD s.currentStep false = true →
            (tick s).melodicTrigger = some (300 + (s.currentStep : ℚ) * 20))
            ∧ (s.synthSequencer.getD s.currentStep false = false →
                (tick s).melodicTrigger = none)
            ∧ (tick s).nextStep = (s.currentStep + 1) % 16
            ∧ (tick s).nextStep < 16 := by
  refine ⟨⟨by norm_num [stepTime], by norm_num [stepTime], by norm_num [stepTime]⟩,
    fun s => ⟨fun h => by simp only [tick]; rw [h]; simp,
      fun h => by simp only [tick]; rw [h]; simp, rfl, ?_⟩⟩
  exact Nat.mod_lt _ (by norm_num)

theorem sequencer_tick_spec_witness :
    (List.replicate 16 true).getD 0 false = true
      ∧ (tick ⟨0, List.replicate 16 true, fun _ => List.replicate 16 false,
            ⟨false, false, false, false⟩⟩).melodicTrigger =
        some (300 + ((0 : ℕ) : ℚ) * 20) :=
  ⟨by decide,
    (sequencer_tick_spec.2 ⟨0, List.replicate 16 true,
      fun _ => List.replicate 16 false, ⟨false, false, false, false⟩⟩).1 (by decide)⟩

/-- The connections each case of `playDrumSound` establishes
(`src/app/page.tsx` lines 230–346), per-hit generating units first:
kick: osc→gain→kickGain→master; snare: noise→noiseGain→master and
osc→oscGain→master; hihat: noise→highpass→noiseGain→master;
tom/perc: osc→gain→master; clap: noise→noiseGain→master. -/
def drumTriggerEdges : DrumType → List (Node × Node)
  | DrumType.kick =>
      [(Node.drumOsc, Node.drumGain), (Node.drumGain, Node.kickGain),
        (Node.kickGain, Node.master)]
  | DrumType.snare =>
      [(Node.drumNoise, Node.drumNoiseGain), (Node.drumNoiseGain, Node.master),
        (Node.drumOsc, Node.drumOscGain), (Node.drumOscGain, Node.master)]
  | DrumType.hihat =>
      [(Node.drumNoise, Node.drumFilter), (Node.drumFilter, Node.drumNoiseGain),
        (Node.drumNoiseGain, Node.master)]
  | DrumType.tom =>
      [(Node.drumOsc, Node.drumGain), (Node.drumGain, Node.master)]
  | DrumType.clap =>
      [(Node.drumNoise, Node.drumNoiseGain), (Node.drumNoiseGain, Node.master)]
  | DrumType.perc =>
      [(Node.drumOsc, Node.drumGain), (Node.drumGain, Node.master)]

/-- The connections `playSynthNote` establishes before handing the filter to
`connectToEffectsChain`: `osc.connect(gainNode)`, `gainNode.connect(filter)`
(the filter being `Node.src`). -/
def melodicVoiceEdges : List (Node × Node) :=
  [(Node.voiceOsc, Node.voiceGain), (Node.voiceGain, Node.src)]

/-- Performing a list of `connect` calls in order. -/
def addEdges (g : Graph) (es : List (Node × Node)) : Graph :=
  es.foldl (fun h e => connect h e.1 e.2) g

/-- A drum trigger only connects: it adds its edges and removes nothing. -/
def applyDrumTrigger (t : DrumType) (g : Graph) : Graph :=
  addEdges g (drumTriggerEdges t)

/-- A melodic trigger wires osc→gain→filter and then re-routes the filter
through the effects chain. -/
def applyMelodicTrigger (f : FxFlags) (g : Graph) : Graph :=
  applyChain f (addEdges g melodicVoiceEdges)

/-- The graph-mutating operations a session performs after startup. -/
inductive Op
  | melodic (f : FxFlags)
  | drum (t : DrumType)

def applyOp (g : Graph) : Op → Graph
  | Op.melodic f => applyMelodicTrigger f g
  | Op.drum t => applyDrumTrigger t g

/-- The graph after a sequence of trigger operations from the startup
wiring. -/
def run (ops : List Op) : Graph :=
  ops.foldl applyOp initGraph

theorem mem_addEdges {x : Node × Node} :
    ∀ (es : List (Node × Node)) (g : Graph), x ∈ addEdges g es → x ∈ g ∨ x ∈ es := by
  intro es
  induction es with
  | nil => intro g h; exact Or.inl h
  | cons e es ih =>
    intro g h
    rcases ih (connect g e.1 e.2) h with h' | h'
    · rcases mem_connect.mp h' with h'' | h''
      · exact Or.inl h''
      · exact Or.inr (by rw [h'']; exact List.mem_cons_self e es)
    · exact Or.inr (List.mem_cons_of_mem e h')

theorem mem_addEdges_of_mem {x : Node × Node} :
    ∀ (es : List (Node × Node)) (g : Graph), x ∈ g → x ∈ addEdges g es := by
  intro es
  induction es with
  | nil => intro g h; exact h
  | cons e es ih =>
    intro g h
    exact ih (connect g e.1 e.2) (mem_connect.mpr (Or.inl h))

theorem mem_addEdges_of_mem_edges {x : Node × Node} :
    ∀ (es : List (Node × Node)) (g : Graph), x ∈ es → x ∈ addEdges g es := by
  intro es
  induction es with
  | nil => intro g h; exact absurd h (List.not_mem_nil x)
  | cons e es ih =>
    intro g h
    rcases List.mem_cons.mp h with h' | h'
    · exact mem_addEdges_of_mem es _ (mem_connect.mpr (Or.inr h'))
    · exact ih _ h'

/-- The long-lived nodes of the effects routing graph. -/
def effectsNodes : List Node :=
  [Node.delay, Node.feedbackGain, Node.reverb, Node.compressor, Node.duckGain]

/-- C9: every drum trigger only adds connections whose endpoints lie outside
the effects routing graph (delay, feedback gain, reverb, compressor, duck
gain), it removes no existing connection, and it does connect to the master
bus: some added edge targets `Node.master`. -/
theorem drum_triggers_bypass_effects (t : DrumType) (g : Graph) :
    (∀ e : Node × Node, e ∈ applyDrumTrigger t g → e ∉ g →
        e.1 ∉ effectsNodes ∧ e.2 ∉ effectsNodes)
      ∧ (∀ e : Node × Node, e ∈ g → e ∈ applyDrumTrigger t g)
      ∧ ∃ e ∈ drumTriggerEdges t, e.2 = Node.master ∧ e ∈ applyDrumTrigger t g := by
  refine ⟨fun e he hng => ?_, fun e he => mem_addEdges_of_mem _ g he, ?_⟩
  · rcases mem_addEdges (drumTriggerEdges t) g he with h | h
    · exact absurd h hng
    · cases t <;> fin_cases h <;> decide
  · cases t
    case kick =>
      exact ⟨(Node.kickGain, Node.master), by decide, rfl,
        mem_addEdges_of_mem_edges _ g (by decide)⟩
    case snare =>
      exact ⟨(Node.drumNoiseGain, Node.master), by decide, rfl,
        mem_addEdges_of_mem_edges _ g (by decide)⟩
    case hihat =>
      exact ⟨(Node.drumNoiseGain, Node.master), by decide, rfl,
        mem_addEdges_of_mem_edges _ g (by decide)⟩
    case tom =>
      exact ⟨(Node.drumGain, Node.master), by decide, rfl,
        mem_addEdges_of_mem_edges _ g (by decide)⟩
    case clap =>
      exact ⟨(Node.drumNoiseGain, Node.master), by decide, rfl,
        mem_addEdges_of_mem_edges _ g (by decide)⟩
    case perc =>
      exact ⟨(Node.drumGain, Node.master), by decide, rfl,
        mem_addEdges_of_mem_edges _ g (by decide)⟩

theorem drum_triggers_bypass_effects_witness :
    (Node.drumGain, Node.kickGain) ∈ applyDrumTrigger DrumType.kick initGraph
      ∧ (Node.drumGain ∉ effectsNodes ∧ Node.kickGain ∉ effectsNodes) :=
  ⟨by decide,
    (drum_triggers_bypass_effects DrumType.kick initGraph).1
      (Node.drumGain, Node.kickGain) (by decide) (by decide)⟩

/-- Every connection `connectToEffectsChain` can possibly add, across all
flag combinations. -/
def chainEdgeUniverse : List (Node × Node) :=
  [(Node.src, Node.delay), (Node.src, Node.master), (Node.src, Node.reverb),
    (Node.src, Node.compressor), (Node.src, Node.dest),
    (Node.delay, Node.reverb), (Node.delay, Node.master),
    (Node.delay, Node.compressor), (Node.delay, Node.dest),
    (Node.reverb, Node.compressor), (Node.reverb, Node.dest),
    (Node.compressor, Node.dest)]

theorem mem_applyChain {f : FxFlags} {g : Graph} {x : Node × Node}
    (hx : x ∈ applyChain f g) : x ∈ g ∨ x ∈ chainEdgeUniverse := by
  obtain ⟨d, r, c, k⟩ := f
  cases d <;> cases r <;> cases c <;>
    simp_all [applyChain, mem_connect, mem_disconnectAll, chainEdgeUniverse] <;>
      tauto

theorem duckFree_applyOp {g : Graph}
    (h : ∀ e ∈ g, e.1 ≠ Node.duckGain ∧ e.2 ≠ Node.duckGain) (o : Op) :
    ∀ e ∈ applyOp g o, e.1 ≠ Node.duckGain ∧ e.2 ≠ Node.duckGain := by
  have huniv : ∀ e ∈ chainEdgeUniverse, e.1 ≠ Node.duckGain ∧ e.2 ≠ Node.duckGain := by
    decide
  have hmel : ∀ e ∈ melodicVoiceEdges, e.1 ≠ Node.duckGain ∧ e.2 ≠ Node.duckGain := by
    decide
  have hdrum : ∀ t : DrumType, ∀ e ∈ drumTriggerEdges t,
      e.1 ≠ Node.duckGain ∧ e.2 ≠ Node.duckGain := by
    intro t
    cases t <;> decide
  cases o with
  | melodic f =>
    intro e he
    rcases mem_applyChain he with h1 | h1
    · rcases mem_addEdges _ _ h1 with h2 | h2
      · exact h e h2
      · exact hmel e h2
    · exact huniv e h1
  | drum t =>
    intro e he
    rcases mem_addEdges _ _ he with h2 | h2
    · exact h e h2
    · exact hdrum t e h2

theorem foldl_applyOp_duckFree : ∀ (ops : List Op) (g : Graph),
    (∀ e ∈ g, e.1 ≠ Node.duckGain ∧ e.2 ≠ Node.duckGain) →
    ∀ e ∈ ops.foldl applyOp g, e.1 ≠ Node.duckGain ∧ e.2 ≠ Node.duckGain := by
  intro ops
  induction ops with
  | nil => intro g h; exact h
  | cons o ops ih =>
    intro g h
    exact ih (applyOp g o) (duckFree_applyOp h o)

/-- C10: the duck-gain node is allocated and its envelope is scheduled
exactly on qualifying ticks (compression enabled, duck-on-kick enabled, kick
lane active at the current step), but no operation of the program — neither
the startup wiring nor any sequence of melodic or drum triggers — ever
establishes a connection into or out of the duck-gain node, so the scheduled
duck envelope affects no audible signal path. -/
theorem duck_gain_never_connected :
    (∀ ops : List Op, ∀ e ∈ run ops, e.1 ≠ Node.duckGain ∧ e.2 ≠ Node.duckGain)
      ∧ ∀ s : SeqState,
          (tick s).duckScheduled =
            (s.fx.compressionEnabled && s.fx.duckKick &&
              (s.drumSequencer DrumType.kick).getD s.currentStep false) :=
  ⟨fun ops => foldl_applyOp_duckFree ops initGraph (by decide), fun _ => rfl⟩

theorem duck_gain_never_connected_witness :
    (Node.kickGain, Node.master) ∈ run [Op.drum DrumType.kick]
      ∧ Node.kickGain ≠ Node.duckGain ∧ Node.master ≠ Node.duckGain :=
  ⟨by decide,
    duck_gain_never_connected.1 [Op.drum DrumType.kick] (Node.kickGain, Node.master)
      (by decide)⟩
